import Mathlib

/-!
Verification development for the aqpMcp service core.

We embed, directly from the TypeScript source, the three components the
specification's claims are about:

* the message reconciler (`pickCreatedMs`, `byCreatedAsc`, the merge/limit
  logic of the `/node/agent/messages` handler) from `src/index.ts`;
* the credential provider (`getToken`) from `src/utils/auth.ts`;
* the run orchestrator (`AgentService.appendAndRun`) from `src/Agent.ts`.

Modelling conventions: JavaScript numbers that carry timestamps, poll
intervals and timeouts are embedded as `Int`; the wall clock is an explicit
parameter (`now`), with remote calls taking zero time and each
`setTimeout(pollMs)` advancing the clock by exactly `pollMs`;
`new Date(v).getTime()` on strings is an abstract parameter
`parseDate : String → Option Int` (`none` models a non-finite result);
`Array.prototype.sort` with a comparator is modelled by the stable
`List.mergeSort` with the relation `comparator a b ≤ 0`; async exceptions
become an `Except` error value, and the poll loop takes a fuel argument
(`none` models non-termination of the loop within the given fuel).
-/

/-- A JSON-ish field value as far as `pickCreatedMs` distinguishes them:
a JS number or a string (any other non-null value goes down the same
`new Date(v)` path as a string, via `parseDate`). -/
inductive JValue where
  | num (n : Int)
  | str (s : String)
deriving DecidableEq, Repr

/-- A message object as the reconciler probes it: each candidate creation
field and each id field is either absent/null (`none`) or present. -/
structure JMessage where
  created_at : Option JValue := none
  createdAt : Option JValue := none
  created : Option JValue := none
  createTime : Option JValue := none
  timestamp : Option JValue := none
  id : Option String := none
  altId : Option String := none
  role : Option String := none
deriving DecidableEq, Repr

/-- One probe of `pickCreatedMs`: given the value found under one candidate
key, either produce the timestamp in ms or `none` (meaning: continue to the
next key). Embeds the loop body of `pickCreatedMs` in `src/index.ts`:
`if (v == null) continue; if (typeof v === "number") return v < 1e12 ? v * 1000 : v;
const t = new Date(v).getTime(); if (Number.isFinite(t)) return t;`. -/
def probeCreated (parseDate : String → Option Int) : Option JValue → Option Int
  | none => none
  | some (JValue.num v) => some (if v < 10 ^ 12 then v * 1000 else v)
  | some (JValue.str s) => parseDate s

/-- `pickCreatedMs` from `src/index.ts`: probe
`["created_at", "createdAt", "created", "createTime", "timestamp"]` in order
and fall back to `Date.now()` (the parameter `now`). -/
def pickCreatedMs (parseDate : String → Option Int) (now : Int) (m : JMessage) : Int :=
  match probeCreated parseDate m.created_at with
  | some t => t
  | none =>
  match probeCreated parseDate m.createdAt with
  | some t => t
  | none =>
  match probeCreated parseDate m.created with
  | some t => t
  | none =>
  match probeCreated parseDate m.createTime with
  | some t => t
  | none =>
  match probeCreated parseDate m.timestamp with
  | some t => t
  | none => now

/-- The candidate creation fields in the order `pickCreatedMs` probes them. -/
def createdCandidates (m : JMessage) : List (Option JValue) :=
  [m.created_at, m.createdAt, m.created, m.createTime, m.timestamp]

/-- The first present (non-null) candidate creation value of a message. -/
def firstCreated (m : JMessage) : Option JValue :=
  (createdCandidates m).findSome? id

/-- `String(a?.id ?? a?._id ?? "")` from `byCreatedAsc`. -/
def tieId (m : JMessage) : String :=
  (m.id.or m.altId).getD ""

/-- `localeCompare`, modelled as code-point lexicographic comparison:
negative, zero or positive according to `<`, `=`, `>`. -/
def localeCompareInt (s t : String) : Int :=
  if s < t then -1 else if t < s then 1 else 0

/-- The comparator `byCreatedAsc` from `src/index.ts`: ascending by
`pickCreatedMs`, ties broken by `localeCompare` on `id ?? _id ?? ""`. -/
def byCreatedAsc (parseDate : String → Option Int) (now : Int) (a b : JMessage) : Int :=
  let ta := pickCreatedMs parseDate now a
  let tb := pickCreatedMs parseDate now b
  if ta ≠ tb then ta - tb else localeCompareInt (tieId a) (tieId b)

/-- The "comes no later" relation induced by the comparator, as used by a
stable `Array.prototype.sort`. -/
def msgLe (parseDate : String → Option Int) (now : Int) (a b : JMessage) : Bool :=
  decide (byCreatedAsc parseDate now a b ≤ 0)

/-- `orderMessages` (spec Contract B): the handler's
`[...].sort(byCreatedAsc)`, modelled by the stable merge sort. -/
def orderMessages (parseDate : String → Option Int) (now : Int)
    (l : List JMessage) : List JMessage :=
  l.mergeSort (msgLe parseDate now)

/-- The `limit` field of the `/node/agent/messages` request body: absent, a
JS number, or some non-number JSON value. -/
inductive LimitParam where
  | absent
  | num (n : Int)
  | other
deriving DecidableEq, Repr

/-- `Array.prototype.slice(-n)` for `n > 0`: the suffix of the last `n`
elements (the whole list when `n ≥ length`). -/
def jsSliceLast (n : Int) (l : List JMessage) : List JMessage :=
  l.drop (l.length - n.toNat)

/-- The merge-and-limit logic of the `/node/agent/messages` handler in
`src/index.ts`: concatenate the two raw thread histories, sort by
`byCreatedAsc`, then
`typeof limit === "number" && limit > 0 ? merged.slice(-limit) : merged`. -/
def messagesHandler (parseDate : String → Option Int) (now : Int)
    (rawParam rawSummary : List JMessage) (limit : LimitParam) : List JMessage :=
  let merged := orderMessages parseDate now (rawParam ++ rawSummary)
  match limit with
  | LimitParam.num n => if 0 < n then jsSliceLast n merged else merged
  | _ => merged

/-! ## Credential provider (`src/utils/auth.ts`) -/

/-- The module-level mutable state of `auth.ts`:
`let cachedToken: string | null = null; let tokenExpireAt = 0;`
(`tokenExpireAt` in Unix seconds). -/
structure AuthState where
  cachedToken : Option String
  tokenExpireAt : Int
deriving DecidableEq, Repr

/-- Outcome of the `axios.post` credential exchange: a response carrying
`{access_token, expires_in}` (with `expires_in` possibly absent), or any
transport/response failure (the `catch` branch). -/
inductive TokenResp where
  | success (access_token : String) (expires_in : Option Int)
  | failure
deriving DecidableEq, Repr

/-- What one `getToken` call produces: the auth module state afterwards, the
returned value (`none` models the `null` return), and whether the remote
credential exchange was invoked. -/
structure GetTokenOut where
  state : AuthState
  result : Option (String × Int)
  exchanged : Bool
deriving DecidableEq, Repr

/-- JS truthiness of `cachedToken : string | null`: `null` and `""` are
falsy. -/
def tokenTruthy : Option String → Bool
  | none => false
  | some s => !(s == "")

/-- `expires_in || 3600`: `undefined` and `0` are falsy. -/
def expiresOr3600 : Option Int → Int
  | none => 3600
  | some e => if e == 0 then 3600 else e

/-- `getToken` from `src/utils/auth.ts`. `now` is
`Math.floor(Date.now() / 1000)`; `resp` is the outcome the identity
endpoint would give if called. Cache hit iff
`cachedToken && tokenExpireAt > now + 60`; on success the cache is replaced
wholesale and `tokenExpireAt = now + (expires_in || 3600)`; on failure the
call returns `null` with the state untouched. -/
def getToken (st : AuthState) (now : Int) (resp : TokenResp) : GetTokenOut :=
  if tokenTruthy st.cachedToken && decide (st.tokenExpireAt > now + 60) then
    { state := st
      result := st.cachedToken.map fun tok => (tok, st.tokenExpireAt)
      exchanged := false }
  else
    match resp with
    | TokenResp.success tok e =>
        let newExp := now + expiresOr3600 e
        { state := { cachedToken := some tok, tokenExpireAt := newExp }
          result := some (tok, newExp)
          exchanged := true }
    | TokenResp.failure =>
        { state := st, result := none, exchanged := true }

/-! ## Run orchestrator (`AgentService.appendAndRun` in `src/Agent.ts`) -/

/-- What one `runs.get(threadId, runId)` call returns: the fields
`appendAndRun` inspects. -/
structure RunView where
  id : String
  status : String
  lastError : Option String := none
deriving DecidableEq, Repr

/-- A test double of the remote agent API, as far as `appendAndRun`
observes it: `statuses i` is the response of the `i`-th `runs.get` call
(0-indexed); message append and run creation always succeed. -/
structure RemoteRun where
  statuses : Nat → RunView

/-- Remote-call counts of one `appendAndRun` invocation: message appends,
run creations, run-status reads, and `setTimeout(pollMs)` sleeps. -/
structure Trace where
  appends : Nat
  runCreates : Nat
  statusReads : Nat
  sleeps : Nat
deriving DecidableEq, Repr

/-- The errors `appendAndRun` can throw: `new Error("message is empty")`
and `new Error("run failed: ...")`. -/
inductive AgentError where
  | invalidArgument
  | runFailed (lastError : Option String)
deriving DecidableEq, Repr

/-- The value `appendAndRun` resolves with: `{ runId: cur.id, status: cur.status }`. -/
structure RunOutcome where
  runId : String
  status : String
deriving DecidableEq, Repr

/-- The guard `!message?.trim()` of `appendAndRun`: the message is empty or
whitespace-only, i.e. trimming leaves the empty string. -/
def blankMessage (message : String) : Bool :=
  message.data.all Char.isWhitespace

/-- The loop guard `cur.status === "queued" || cur.status === "in_progress"`. -/
def pendingStatus (v : RunView) : Bool :=
  v.status == "queued" || v.status == "in_progress"

/-- The polling loop of `appendAndRun`:
`while ((queued || in_progress) && Date.now() < end) { await sleep(pollMs); cur = await runs.get(...) }`.
`cur` is the last response read, `now` the current clock, `reads`/`sleeps`
the running counts; `reads` is also the index of the next `runs.get` call.
Runs at most `fuel` iterations; `none` means the fuel was exhausted with
the guard still true. -/
def pollLoop (statuses : Nat → RunView) (pollMs endT : Int) :
    Nat → RunView → Int → Nat → Nat → Option (RunView × Nat × Nat)
  | 0, cur, now, reads, sleeps =>
      if pendingStatus cur && decide (now < endT) then none
      else some (cur, reads, sleeps)
  | fuel + 1, cur, now, reads, sleeps =>
      if pendingStatus cur && decide (now < endT) then
        pollLoop statuses pollMs endT fuel (statuses reads) (now + pollMs)
          (reads + 1) (sleeps + 1)
      else some (cur, reads, sleeps)

/-- `AgentService.appendAndRun(threadId, message, pollMs, timeoutMs)` from
`src/Agent.ts`, run against the remote double `remote`. Polling starts at
clock 0, so `end = Date.now() + timeoutMs` becomes `endT = timeoutMs`, and
the first `runs.get` follows immediately; the result pairs the remote-call
trace with the thrown error or resolved value; `none` means the poll loop
ran beyond `fuel` iterations. -/
def appendAndRun (remote : RemoteRun) (message : String)
    (pollMs timeoutMs : Int) (fuel : Nat) :
    Option (Trace × Except AgentError RunOutcome) :=
  if blankMessage message then
    some ({ appends := 0, runCreates := 0, statusReads := 0, sleeps := 0 },
      Except.error AgentError.invalidArgument)
  else
    let endT : Int := timeoutMs
    let cur0 := remote.statuses 0
    match pollLoop remote.statuses pollMs endT fuel cur0 0 1 0 with
    | none => none
    | some (cur, reads, sleeps) =>
        if cur.status == "failed" then
          some ({ appends := 1, runCreates := 1, statusReads := reads, sleeps := sleeps },
            Except.error (AgentError.runFailed cur.lastError))
        else
          some ({ appends := 1, runCreates := 1, statusReads := reads, sleeps := sleeps },
            Except.ok { runId := cur.id, status := cur.status })

/-! ## Helper lemmas -/

/-- If the current status is not pending, the poll loop exits at once,
whatever the fuel and the clock. -/
lemma pollLoop_not_pending (statuses : Nat → RunView) (pollMs endT : Int)
    (fuel : Nat) (cur : RunView) (now : Int) (reads sleeps : Nat)
    (h : pendingStatus cur = false) :
    pollLoop statuses pollMs endT fuel cur now reads sleeps = some (cur, reads, sleeps) := by
  cases fuel <;> simp [pollLoop, h]

/-! ## Claims about the credential provider -/

/-- C5: a `getToken` call that serves from the cache without invoking the
refresh exchange only does so when the cached token has at least 60 seconds
of remaining validity at the time of the call (the code in fact requires
strictly more than 60); consequently, once the remaining validity drops
below the 60-second margin the token is never served from the cache. -/
theorem getToken_cache_margin (st : AuthState) (now : Int) (resp : TokenResp)
    (h : (getToken st now resp).exchanged = false) :
    60 ≤ st.tokenExpireAt - now ∧
      (getToken st now resp).result
        = st.cachedToken.map (fun tok => (tok, st.tokenExpireAt)) := by
  by_cases hc : (tokenTruthy st.cachedToken && decide (st.tokenExpireAt > now + 60)) = true
  · have hlt : now + 60 < st.tokenExpireAt := by
      have := (Bool.and_eq_true _ _).mp hc
      exact of_decide_eq_true this.2
    refine ⟨by omega, ?_⟩
    simp [getToken, hc]
  · exfalso
    cases resp <;> simp [getToken, hc] at h

/-- C5 witness: a token with 940 seconds of remaining validity is served
from the cache, and indeed has at least 60 seconds left. -/
theorem getToken_cache_margin_witness :
    60 ≤ (1000 : Int) - 60 ∧
      (getToken { cachedToken := some "tok", tokenExpireAt := 1000 } 60
          TokenResp.failure).result
        = (Option.some "tok").map (fun tok => (tok, (1000 : Int))) :=
  getToken_cache_margin { cachedToken := some "tok", tokenExpireAt := 1000 } 60
    TokenResp.failure (by decide)

/-- C6: when a `getToken` call does invoke the credential exchange and the
exchange fails, the call returns `null` (no exception: `getToken` is total
and the `catch` branch yields a value) and leaves the cached token and its
expiry exactly as they were. -/
theorem getToken_failure_preserves_cache (st : AuthState) (now : Int)
    (h : (getToken st now TokenResp.failure).exchanged = true) :
    (getToken st now TokenResp.failure).result = none ∧
      (getToken st now TokenResp.failure).state = st := by
  by_cases hc : (tokenTruthy st.cachedToken && decide (st.tokenExpireAt > now + 60)) = true
  · exfalso
    simp [getToken, hc] at h
  · simp [getToken, hc]

/-- C6 witness: with a previously cached token that is already inside the
60-second margin, a failed exchange returns `null` and keeps the old cache
entry untouched. -/
theorem getToken_failure_preserves_cache_witness :
    (getToken { cachedToken := some "old", tokenExpireAt := 50 } 0
        TokenResp.failure).result = none ∧
      (getToken { cachedToken := some "old", tokenExpireAt := 50 } 0
          TokenResp.failure).state
        = { cachedToken := some "old", tokenExpireAt := 50 } :=
  getToken_failure_preserves_cache { cachedToken := some "old", tokenExpireAt := 50 } 0
    (by decide)

/-! ## Claims about the run orchestrator: validation -/

/-- C7: for an empty or whitespace-only message, `appendAndRun` throws the
`InvalidArgument` error (`new Error("message is empty")`) with zero remote
calls: no append, no run creation, no status read. -/
theorem appendAndRun_empty_message (remote : RemoteRun) (message : String)
    (pollMs timeoutMs : Int) (fuel : Nat) (h : blankMessage message = true) :
    appendAndRun remote message pollMs timeoutMs fuel
      = some ({ appends := 0, runCreates := 0, statusReads := 0, sleeps := 0 },
          Except.error AgentError.invalidArgument) := by
  simp [appendAndRun, h]

/-- C7 witness: a whitespace-only message against a remote double that
would report `completed` is rejected with no remote call recorded. -/
theorem appendAndRun_empty_message_witness :
    (blankMessage "  " = true) ∧
      appendAndRun { statuses := fun _ => { id := "r", status := "completed" } }
          "  " 1000 120000 5
        = some ({ appends := 0, runCreates := 0, statusReads := 0, sleeps := 0 },
            Except.error AgentError.invalidArgument) :=
  ⟨by decide,
    appendAndRun_empty_message { statuses := fun _ => { id := "r", status := "completed" } }
      "  " 1000 120000 5 (by decide)⟩

/-! ## Claims about the message reconciler -/

/-- `pickCreatedMs` is the first successful probe over the candidate keys,
with `Date.now()` as the fallback. -/
lemma pickCreatedMs_eq_findSome (pd : String → Option Int) (now : Int) (m : JMessage) :
    pickCreatedMs pd now m
      = ((createdCandidates m).findSome? (probeCreated pd)).getD now := by
  cases h1 : probeCreated pd m.created_at <;>
    cases h2 : probeCreated pd m.createdAt <;>
      cases h3 : probeCreated pd m.created <;>
        cases h4 : probeCreated pd m.createTime <;>
          cases h5 : probeCreated pd m.timestamp <;>
            simp [pickCreatedMs, createdCandidates, List.findSome?, h1, h2, h3, h4, h5]

/-- If the first present candidate value in a probe list is the number `v`,
then probing every candidate yields the numeric conversion of `v`. -/
lemma findSome?_probe_of_first_num (pd : String → Option Int) :
    ∀ (l : List (Option JValue)) (v : Int), l.findSome? id = some (JValue.num v) →
      l.findSome? (probeCreated pd) = some (if v < 10 ^ 12 then v * 1000 else v) := by
  intro l
  induction l with
  | nil => intro v h; simp [List.findSome?] at h
  | cons a t ih =>
      intro v h
      cases a with
      | none =>
          simp only [List.findSome?, id] at h ⊢
          exact ih v h
      | some val =>
          simp only [List.findSome?, id] at h ⊢
          cases h
          rfl

/-- C3 (amended): when the first present, non-null candidate creation field
of a message holds a numeric value `v`, `pickCreatedMs` returns `v * 1000`
when `v < 10^12` and `v` unchanged when `v ≥ 10^12` — a signed comparison,
not one on the magnitude of `v`. -/
theorem pickCreatedMs_first_numeric (pd : String → Option Int) (now : Int)
    (m : JMessage) (v : Int) (h : firstCreated m = some (JValue.num v)) :
    pickCreatedMs pd now m = if v < 10 ^ 12 then v * 1000 else v := by
  rw [pickCreatedMs_eq_findSome]
  rw [findSome?_probe_of_first_num pd (createdCandidates m) v h]
  rfl

/-- C3 witness: `{created_at: 1700000000}` (seconds) yields
`1700000000000`, and `{createdAt: 1700000000000}` (already milliseconds)
is returned unchanged. -/
theorem pickCreatedMs_first_numeric_witness :
    pickCreatedMs (fun _ => none) 0 { created_at := some (JValue.num 1700000000) }
        = 1700000000000 ∧
      pickCreatedMs (fun _ => none) 0 { createdAt := some (JValue.num 1700000000000) }
        = 1700000000000 := by
  constructor
  · rw [pickCreatedMs_first_numeric (fun _ => none) 0 _ 1700000000 (by rfl)]
    decide
  · rw [pickCreatedMs_first_numeric (fun _ => none) 0 _ 1700000000000 (by rfl)]
    decide

/-- C3 counterexample: for `{created_at: -10^12}` the first present
candidate value is numeric with magnitude `10^12 ≥ 10^12`, so the claim
says it is returned unchanged; the code compares with a signed `v < 1e12`
and multiplies by 1000 instead. -/
theorem pickCreatedMs_magnitude_counterexample :
    pickCreatedMs (fun _ => none) 0 { created_at := some (JValue.num (-(10 ^ 12))) }
        = -(10 ^ 12) * 1000 ∧
      (-(10 ^ 12) * 1000 : Int) ≠ -(10 ^ 12) := by
  constructor
  · rfl
  · decide

/-- `localeCompare`-style comparison is nonpositive exactly for `≤`. -/
lemma localeCompareInt_nonpos (s t : String) : localeCompareInt s t ≤ 0 ↔ s ≤ t := by
  unfold localeCompareInt
  rcases lt_trichotomy s t with h | h | h
  · simp [h, le_of_lt h]
  · subst h
    simp [lt_irrefl]
  · rw [if_neg (asymm h), if_pos h]
    simp [not_le.mpr h]

/-- The sort relation of `byCreatedAsc` spelt out: earlier creation time,
or equal times and tie-breaking id no larger. -/
lemma msgLe_iff (pd : String → Option Int) (now : Int) (a b : JMessage) :
    msgLe pd now a b = true ↔
      pickCreatedMs pd now a < pickCreatedMs pd now b ∨
        (pickCreatedMs pd now a = pickCreatedMs pd now b ∧ tieId a ≤ tieId b) := by
  unfold msgLe byCreatedAsc
  by_cases h : pickCreatedMs pd now a = pickCreatedMs pd now b
  · simp [h, localeCompareInt_nonpos]
  · rw [if_pos h, decide_eq_true_eq]
    constructor
    · intro hle
      exact Or.inl (lt_of_le_of_ne (by omega) h)
    · rintro (hlt | ⟨heq, _⟩)
      · omega
      · exact absurd heq h

/-- The sort relation is total. -/
lemma msgLe_total (pd : String → Option Int) (now : Int) :
    ∀ a b, msgLe pd now a b || msgLe pd now b a := by
  intro a b
  rcases lt_trichotomy (pickCreatedMs pd now a) (pickCreatedMs pd now b) with h | h | h
  · simp [(msgLe_iff pd now a b).mpr (Or.inl h)]
  · rcases le_total (tieId a) (tieId b) with hid | hid
    · simp [(msgLe_iff pd now a b).mpr (Or.inr ⟨h, hid⟩)]
    · simp [(msgLe_iff pd now b a).mpr (Or.inr ⟨h.symm, hid⟩)]
  · simp [(msgLe_iff pd now b a).mpr (Or.inl h)]

/-- The sort relation is transitive. -/
lemma msgLe_trans (pd : String → Option Int) (now : Int) :
    ∀ a b c, msgLe pd now a b → msgLe pd now b c → msgLe pd now a c := by
  intro a b c hab hbc
  rw [msgLe_iff] at hab hbc ⊢
  rcases hab with hab | ⟨hab, hab'⟩ <;> rcases hbc with hbc | ⟨hbc, hbc'⟩
  · exact Or.inl (lt_trans hab hbc)
  · exact Or.inl (hbc ▸ hab)
  · exact Or.inl (hab ▸ hbc)
  · exact Or.inr ⟨hab.trans hbc, le_trans hab' hbc'⟩

/-- C4: in the output of `orderMessages`, any two messages with identical
inferred creation timestamps appear in ascending lexicographic order of
their tie-breaking id (`id`, falling back to the alternate id field, then
the empty string). -/
theorem orderMessages_tie_by_id (pd : String → Option Int) (now : Int)
    (l : List JMessage) :
    (orderMessages pd now l).Pairwise (fun a b =>
      pickCreatedMs pd now a = pickCreatedMs pd now b → tieId a ≤ tieId b) := by
  have hs := List.sorted_mergeSort (msgLe_trans pd now) (msgLe_total pd now) l
  refine hs.imp ?_
  intro a b hab heq
  rcases (msgLe_iff pd now a b).mp hab with hlt | ⟨_, hid⟩
  · exact absurd heq (ne_of_lt hlt)
  · exact hid

/-- C8: `orderMessages` is idempotent — sorting its own output changes
nothing (with the wall clock held fixed across the two applications, so
that the `Date.now()` fallback of `pickCreatedMs` is deterministic). -/
theorem orderMessages_idempotent (pd : String → Option Int) (now : Int)
    (l : List JMessage) :
    orderMessages pd now (orderMessages pd now l) = orderMessages pd now l :=
  List.mergeSort_of_sorted
    (List.sorted_mergeSort (msgLe_trans pd now) (msgLe_total pd now) l)

/-- C10: the `/node/agent/messages` handler truncates only when `limit` is
a number strictly greater than zero, in which case the response is the
suffix of the merged ordered sequence of length `min limit length`; when
`limit` is absent, not a number, zero or negative, the full merged ordered
sequence is returned unchanged. -/
theorem messagesHandler_limit (pd : String → Option Int) (now : Int)
    (rawParam rawSummary : List JMessage) (limit : LimitParam) :
    (∀ n, limit = LimitParam.num n → 0 < n →
        messagesHandler pd now rawParam rawSummary limit
            <:+ orderMessages pd now (rawParam ++ rawSummary) ∧
          (messagesHandler pd now rawParam rawSummary limit).length
            = min n.toNat (orderMessages pd now (rawParam ++ rawSummary)).length) ∧
      ((∀ n, limit = LimitParam.num n → n ≤ 0) →
        messagesHandler pd now rawParam rawSummary limit
          = orderMessages pd now (rawParam ++ rawSummary)) := by
  constructor
  · rintro n rfl hn
    have hpos : (0 : Int) < n := hn
    constructor
    · simp only [messagesHandler, if_pos hpos]
      exact List.drop_suffix _ _
    · simp only [messagesHandler, if_pos hpos, jsSliceLast, List.length_drop]
      omega
  · intro hnp
    cases limit with
    | absent => rfl
    | num n =>
        have := hnp n rfl
        simp [messagesHandler, not_lt.mpr this]
    | other => rfl

/-- C10 witness: with two one-element thread histories and `limit = 1`, the
response is a suffix of the merged order of length `min 1 2`. -/
theorem messagesHandler_limit_witness :
    messagesHandler (fun _ => none) 0 [{ id := some "a" }] [{ id := some "b" }]
          (LimitParam.num 1)
        <:+ orderMessages (fun _ => none) 0
          ([{ id := some "a" }] ++ [{ id := some "b" }]) ∧
      (messagesHandler (fun _ => none) 0 [{ id := some "a" }] [{ id := some "b" }]
            (LimitParam.num 1)).length
        = min (1 : Int).toNat
            (orderMessages (fun _ => none) 0
              ([{ id := some "a" }] ++ [{ id := some "b" }])).length :=
  (messagesHandler_limit (fun _ => none) 0 [{ id := some "a" }] [{ id := some "b" }]
      (LimitParam.num 1)).1 1 rfl (by decide)

/-! ## Claims about the run orchestrator: polling -/

/-- C1: when the remote reports `in_progress` on the first two status reads
and `completed` on the third, `appendAndRun` (append and run creation
succeeding, poll interval below the timeout as with the defaults
1000/120000) issues exactly three status reads — with one message append,
one run creation and two sleeps — and resolves with status `completed`. -/
theorem appendAndRun_three_polls (remote : RemoteRun) (message : String)
    (pollMs timeoutMs : Int) (fuel : Nat)
    (hm : blankMessage message = false)
    (h0 : (remote.statuses 0).status = "in_progress")
    (h1 : (remote.statuses 1).status = "in_progress")
    (h2 : (remote.statuses 2).status = "completed")
    (ht0 : 0 < timeoutMs) (ht1 : pollMs < timeoutMs) (hfuel : 2 ≤ fuel) :
    appendAndRun remote message pollMs timeoutMs fuel
      = some ({ appends := 1, runCreates := 1, statusReads := 3, sleeps := 2 },
          Except.ok { runId := (remote.statuses 2).id, status := "completed" }) := by
  obtain ⟨f, rfl⟩ : ∃ f, fuel = f + 2 := ⟨fuel - 2, by omega⟩
  have hp0 : pendingStatus (remote.statuses 0) = true := by simp [pendingStatus, h0]
  have hp1 : pendingStatus (remote.statuses 1) = true := by simp [pendingStatus, h1]
  have hp2 : pendingStatus (remote.statuses 2) = false := by simp [pendingStatus, h2]
  have hcf : ¬ ("completed" = "failed") := by decide
  simp [appendAndRun, hm, show f + 2 = f + 1 + 1 from rfl, pollLoop, hp0, hp1,
    ht0, ht1, pollLoop_not_pending _ _ _ f _ _ _ _ hp2, h2, hcf]

/-- The concrete remote double for the C1 witness: `in_progress` on the
first two status reads, `completed` afterwards. -/
def remoteThenCompleted : RemoteRun :=
  { statuses := fun i =>
      if i < 2 then { id := "r1", status := "in_progress" }
      else { id := "r1", status := "completed" } }

/-- C1 witness: the three-poll run at the default poll interval and
timeout. -/
theorem appendAndRun_three_polls_witness :
    appendAndRun remoteThenCompleted "hi" 1000 120000 2
      = some ({ appends := 1, runCreates := 1, statusReads := 3, sleeps := 2 },
          Except.ok
            { runId := (remoteThenCompleted.statuses 2).id, status := "completed" }) :=
  appendAndRun_three_polls remoteThenCompleted "hi" 1000 120000 2
    (by decide) (by decide) (by decide) (by decide) (by decide) (by decide) (by decide)

/-- When every status the remote reports is pending, the poll loop runs to
the time limit: starting from the `reads`-th response it returns the last
response read, having read `k` more, slept `k` times and stopped only once
the clock passed `endT`. -/
lemma pollLoop_pending_total (statuses : Nat → RunView) (pollMs endT : Int)
    (hnt : ∀ i, pendingStatus (statuses i) = true) :
    ∀ (fuel : Nat) (now : Int) (reads sleeps : Nat),
      endT - now ≤ fuel * pollMs → 1 ≤ reads →
      ∃ k, pollLoop statuses pollMs endT fuel (statuses (reads - 1)) now reads sleeps
          = some (statuses (reads + k - 1), reads + k, sleeps + k) ∧
        endT ≤ now + k * pollMs := by
  intro fuel
  induction fuel with
  | zero =>
      intro now reads sleeps hle _
      refine ⟨0, ?_, by omega⟩
      have hnow : decide (now < endT) = false := by
        simp only [decide_eq_false_iff_not, not_lt]
        omega
      simp [pollLoop, hnow]
  | succ f ih =>
      intro now reads sleeps hle hr
      by_cases hnow : now < endT
      · have hmulf : ((f : Int) + 1) * pollMs = (f : Int) * pollMs + pollMs := by ring
        have hle' : endT - now ≤ ((f : Int) + 1) * pollMs := by
          push_cast at hle
          linarith
        have hstep : endT - (now + pollMs) ≤ (f : Int) * pollMs := by linarith
        obtain ⟨k, hk, hkend⟩ := ih (now + pollMs) (reads + 1) (sleeps + 1) hstep (by omega)
        refine ⟨k + 1, ?_, ?_⟩
        · have hcond : (pendingStatus (statuses (reads - 1))
              && decide (now < endT)) = true := by
            simp [hnt, hnow]
          have hidx1 : reads + 1 - 1 = reads := by omega
          rw [hidx1] at hk
          rw [show reads + 1 + k = reads + (k + 1) by omega,
            show sleeps + 1 + k = sleeps + (k + 1) by omega] at hk
          simp only [pollLoop, hcond, if_true]
          exact hk
        · have hmulk : ((k : Int) + 1) * pollMs = (k : Int) * pollMs + pollMs := by ring
          push_cast
          linarith
      · refine ⟨0, ?_, by omega⟩
        have hnow' : decide (now < endT) = false := decide_eq_false hnow
        simp [pollLoop, hnow']

/-- C2: when the remote status stays `queued`/`in_progress` for the whole
polling window, `appendAndRun` exits the loop once `timeoutMs` has elapsed
(the total slept time reaches `timeoutMs`) and resolves — no exception, no
synthesized timeout error — with the last observed non-terminal status
as-is. -/
theorem appendAndRun_timeout_returns_last (remote : RemoteRun) (message : String)
    (pollMs timeoutMs : Int) (fuel : Nat)
    (hm : blankMessage message = false)
    (hnt : ∀ i, (remote.statuses i).status = "queued"
      ∨ (remote.statuses i).status = "in_progress")
    (hfuel : timeoutMs ≤ (fuel : Int) * pollMs) :
    ∃ tr out,
      appendAndRun remote message pollMs timeoutMs fuel = some (tr, Except.ok out) ∧
        out.status = (remote.statuses (tr.statusReads - 1)).status ∧
        (out.status = "queued" ∨ out.status = "in_progress") ∧
        timeoutMs ≤ (tr.sleeps : Int) * pollMs := by
  have hnt' : ∀ i, pendingStatus (remote.statuses i) = true := by
    intro i
    rcases hnt i with h | h <;> simp [pendingStatus, h]
  obtain ⟨k, hk, hkend⟩ := pollLoop_pending_total remote.statuses pollMs timeoutMs
    hnt' fuel 0 1 0 (by simpa using hfuel) (le_refl 1)
  rw [show (1 : Nat) - 1 = 0 from rfl, Nat.zero_add k,
    show 1 + k = k + 1 from Nat.add_comm 1 k, Nat.add_sub_cancel] at hk
  have hnf : ¬ ((remote.statuses k).status = "failed") := by
    rcases hnt k with h | h <;> simp [h]
  refine ⟨{ appends := 1, runCreates := 1, statusReads := k + 1, sleeps := k },
    ⟨(remote.statuses k).id, (remote.statuses k).status⟩, ?_, ?_, hnt k, ?_⟩
  · simp [appendAndRun, hm, hk, hnf]
  · rw [Nat.add_sub_cancel]
  · simpa using hkend

/-- The concrete remote double for the C2 and C9 witnesses: every status
read reports `queued`. -/
def remoteAlwaysQueued : RemoteRun :=
  { statuses := fun _ => { id := "r2", status := "queued" } }

/-- C2 witness: a remote that never leaves `queued`, polled every 1000ms
under a 3000ms timeout, yields a `queued` result with no error. -/
theorem appendAndRun_timeout_returns_last_witness :
    ∃ tr out,
      appendAndRun remoteAlwaysQueued "hi" 1000 3000 3 = some (tr, Except.ok out) ∧
        out.status = (remoteAlwaysQueued.statuses (tr.statusReads - 1)).status ∧
        (out.status = "queued" ∨ out.status = "in_progress") ∧
        (3000 : Int) ≤ (tr.sleeps : Int) * 1000 :=
  appendAndRun_timeout_returns_last remoteAlwaysQueued "hi" 1000 3000 3
    (by decide) (fun _ => Or.inl rfl) (by norm_num)

/-- The poll loop terminates and returns a result whenever
`endT - now ≤ fuel * pollMs`, with at least the status reads it started
with. -/
lemma pollLoop_total (statuses : Nat → RunView) (pollMs endT : Int) :
    ∀ (fuel : Nat) (cur : RunView) (now : Int) (reads sleeps : Nat),
      endT - now ≤ (fuel : Int) * pollMs →
      ∃ out reads' sleeps',
        pollLoop statuses pollMs endT fuel cur now reads sleeps
            = some (out, reads', sleeps') ∧
          reads ≤ reads' := by
  intro fuel
  induction fuel with
  | zero =>
      intro cur now reads sleeps hle
      have hle' : endT - now ≤ 0 := by simpa using hle
      have hnow : decide (now < endT) = false := decide_eq_false (by omega)
      exact ⟨cur, reads, sleeps, by simp [pollLoop, hnow], le_refl reads⟩
  | succ f ih =>
      intro cur now reads sleeps hle
      cases hc : (pendingStatus cur && decide (now < endT)) with
      | false =>
          exact ⟨cur, reads, sleeps, by simp [pollLoop, hc], le_refl reads⟩
      | true =>
          have hnow : now < endT := by
            have := (Bool.and_eq_true _ _).mp hc
            exact of_decide_eq_true this.2
          have hmulf : ((f : Int) + 1) * pollMs = (f : Int) * pollMs + pollMs := by ring
          have hle' : endT - now ≤ ((f : Int) + 1) * pollMs := by
            push_cast at hle
            linarith
          obtain ⟨out, r', s', heq, hr⟩ := ih (statuses reads) (now + pollMs)
            (reads + 1) (sleeps + 1) (by linarith)
          refine ⟨out, r', s', ?_, by omega⟩
          simp only [pollLoop, hc, if_true]
          exact heq

/-- C9: for every non-blank message and every `timeoutMs` — zero and
negative included — a terminating `appendAndRun` performs exactly one
message append, exactly one run creation and at least one status read;
and when the first status read already reports a non-pending status, it
returns with zero sleeps, i.e. no delay between reads. -/
theorem appendAndRun_call_counts (remote : RemoteRun) (message : String)
    (timeoutMs : Int) (fuel : Nat)
    (hm : blankMessage message = false)
    (hfuel : timeoutMs ≤ (fuel : Int) * 1000) :
    ∃ tr r,
      appendAndRun remote message 1000 timeoutMs fuel = some (tr, r) ∧
        tr.appends = 1 ∧ tr.runCreates = 1 ∧ 1 ≤ tr.statusReads ∧
        (pendingStatus (remote.statuses 0) = false → tr.sleeps = 0) := by
  cases hpend : pendingStatus (remote.statuses 0) with
  | false =>
      have hk := pollLoop_not_pending remote.statuses 1000 timeoutMs fuel
        (remote.statuses 0) 0 1 0 hpend
      by_cases hfail : (remote.statuses 0).status = "failed"
      · refine ⟨{ appends := 1, runCreates := 1, statusReads := 1, sleeps := 0 },
          Except.error (AgentError.runFailed (remote.statuses 0).lastError),
          ?_, rfl, rfl, le_refl 1, fun _ => rfl⟩
        simp [appendAndRun, hm, hk, hfail]
      · refine ⟨{ appends := 1, runCreates := 1, statusReads := 1, sleeps := 0 },
          Except.ok ⟨(remote.statuses 0).id, (remote.statuses 0).status⟩,
          ?_, rfl, rfl, le_refl 1, fun _ => rfl⟩
        simp [appendAndRun, hm, hk, hfail]
  | true =>
      obtain ⟨out, r', s', heq, hr⟩ := pollLoop_total remote.statuses 1000 timeoutMs
        fuel (remote.statuses 0) 0 1 0 (by simpa using hfuel)
      by_cases hfail : out.status = "failed"
      · refine ⟨{ appends := 1, runCreates := 1, statusReads := r', sleeps := s' },
          Except.error (AgentError.runFailed out.lastError), ?_, rfl, rfl, hr,
          fun hcf => Bool.noConfusion hcf⟩
        simp [appendAndRun, hm, heq, hfail]
      · refine ⟨{ appends := 1, runCreates := 1, statusReads := r', sleeps := s' },
          Except.ok { runId := out.id, status := out.status }, ?_, rfl, rfl, hr,
          fun hcf => Bool.noConfusion hcf⟩
        simp [appendAndRun, hm, heq, hfail]

/-- C9 witness: a remote that is `completed` on the very first status read,
with a negative timeout, performs one append, one run creation, one status
read and zero sleeps. -/
theorem appendAndRun_call_counts_witness :
    ∃ tr r,
      appendAndRun { statuses := fun _ => { id := "r3", status := "completed" } }
            "hi" 1000 (-5) 0 = some (tr, r) ∧
        tr.appends = 1 ∧ tr.runCreates = 1 ∧ 1 ≤ tr.statusReads ∧
        (pendingStatus
            (RemoteRun.statuses { statuses := fun _ => { id := "r3", status := "completed" } } 0)
              = false →
          tr.sleeps = 0) :=
  appendAndRun_call_counts { statuses := fun _ => { id := "r3", status := "completed" } }
    "hi" (-5) 0 (by decide) (by norm_num)

